import Mathlib

/-!
Verification of the chat-migrator repository (Google Chat → Microsoft Teams
migration scripts) against its natural-language specification.

The repository has three source files:
 * `single_script.py` — monolithic export/transform/replay pipeline;
 * `gchat_takeout_to_teams.py` — Takeout transform producing a message queue
   (jsonl) and a deferred-file manifest (csv);
 * `teams_importer.py` — uploader and replay orchestrator against Graph.

External collaborators (HTTP endpoints, the local filesystem, the Python
standard library's datetime parser) are modelled as explicit parameters:
a response function `Nat → Nat` giving the status of the n-th call, a
`FileSys` record of existence/size/content oracles, and a timestamp parser
`String → Option String` where `none` models a raised `ValueError`.
-/

set_option autoImplicit false

namespace ChatMigrator

/-! ## Date-range partitioning (single_script.py, main, lines 240–245)

Models the loop

    t = start
    while t < end:
        t2 = min(t + timedelta(days=SLICE_DAYS), end)
        slices.append((t.isoformat(), t2.isoformat()))
        t = t2

Timestamps are modelled as `Nat` on a discrete time scale; `width` is the
slice width (`timedelta(days=SLICE_DAYS)`) on the same scale.  The
recursion is driven by the fuel `endT - t`, which bounds the number of
loop iterations whenever `1 ≤ width` (each iteration advances `t` by at
least one unit). -/

def buildSlicesGo (endT width : Nat) : Nat → Nat → List (Nat × Nat)
  | 0, _ => []
  | fuel + 1, t =>
    if t < endT then
      (t, min (t + width) endT) :: buildSlicesGo endT width fuel (min (t + width) endT)
    else []

/-- The partitioning step of `single_script.main`: slice `[start, endT)`
into windows of width `width`, the last window truncated at `endT`. -/
def buildSlices (start endT width : Nat) : List (Nat × Nat) :=
  buildSlicesGo endT width (endT - start) start

/-- `slicesCover s e l` : the slice list `l` tiles the half-open interval
`[s, e)` exactly: each slice starts where the remaining interval starts,
is nonempty, stays inside the interval, and the rest tiles what is left. -/
def slicesCover (s e : Nat) : List (Nat × Nat) → Prop
  | [] => s = e
  | p :: rest => p.1 = s ∧ s < p.2 ∧ p.2 ≤ e ∧ slicesCover p.2 e rest

theorem buildSlicesGo_cover (endT width : Nat) (hw : 1 ≤ width) :
    ∀ fuel t, endT ≤ t + fuel → t ≤ endT →
      slicesCover t endT (buildSlicesGo endT width fuel t) := by
  intro fuel
  induction fuel with
  | zero =>
    intro t h1 h2
    have : t = endT := by omega
    simp [buildSlicesGo, slicesCover, this]
  | succ n ih =>
    intro t h1 h2
    by_cases ht : t < endT
    · simp only [buildSlicesGo, if_pos ht]
      refine ⟨rfl, ?_, ?_, ?_⟩
      · exact lt_min (by omega) ht
      · exact min_le_right _ _
      · exact ih (min (t + width) endT) (by omega) (min_le_right _ _)
    · simp only [buildSlicesGo, if_neg ht]
      have : t = endT := by omega
      simp [slicesCover, this]

theorem slicesCover_mem_iff {s e : Nat} {l : List (Nat × Nat)} (h : slicesCover s e l) :
    ∀ x, (∃ p ∈ l, p.1 ≤ x ∧ x < p.2) ↔ (s ≤ x ∧ x < e) := by
  induction l generalizing s with
  | nil =>
    intro x
    simp only [slicesCover] at h
    subst h
    simp only [List.not_mem_nil, false_and, exists_false, false_iff, not_and, not_lt]
    omega
  | cons p rest ih =>
    intro x
    obtain ⟨hp1, hlt, hle, hrest⟩ := h
    have hx := ih hrest x
    constructor
    · rintro ⟨q, hq, hq1, hq2⟩
      rcases List.mem_cons.mp hq with rfl | hq
      · omega
      · have := (hx.mp ⟨q, hq, hq1, hq2⟩)
        omega
    · rintro ⟨hs, he⟩
      by_cases hxp : x < p.2
      · exact ⟨p, List.mem_cons_self _ _, by omega, hxp⟩
      · obtain ⟨q, hq, hq1, hq2⟩ := hx.mpr ⟨by omega, he⟩
        exact ⟨q, List.mem_cons_of_mem _ hq, hq1, hq2⟩

theorem slicesCover_nonempty {s e : Nat} {l : List (Nat × Nat)} (h : slicesCover s e l)
    (hse : s < e) : l ≠ [] := by
  cases l with
  | nil => simp only [slicesCover] at h; omega
  | cons p rest => simp

theorem slicesCover_pos {s e : Nat} {l : List (Nat × Nat)} (h : slicesCover s e l) :
    ∀ p ∈ l, p.1 < p.2 := by
  induction l generalizing s with
  | nil => intro p hp; simp at hp
  | cons q rest ih =>
    intro p hp
    obtain ⟨hq1, hlt, hle, hrest⟩ := h
    rcases List.mem_cons.mp hp with rfl | hp
    · omega
    · exact ih hrest p hp

theorem slicesCover_chain {s e : Nat} {l : List (Nat × Nat)} (h : slicesCover s e l) :
    ∀ i, ∀ hi : i + 1 < l.length,
      (l.get ⟨i, Nat.lt_of_succ_lt hi⟩).2 = (l.get ⟨i + 1, hi⟩).1 := by
  induction l generalizing s with
  | nil => intro i hi; simp at hi
  | cons q rest ih =>
    intro i hi
    obtain ⟨hq1, hlt, hle, hrest⟩ := h
    cases i with
    | zero =>
      cases rest with
      | nil => simp at hi
      | cons r rr =>
        obtain ⟨hr1, _, _, _⟩ := hrest
        simp [List.get, hr1]
    | succ j =>
      have := ih hrest j (by simpa using Nat.lt_of_succ_lt_succ hi)
      simpa using this

theorem slicesCover_head {s e : Nat} {l : List (Nat × Nat)} (h : slicesCover s e l) :
    ∀ p ∈ l.head?, p.1 = s := by
  cases l with
  | nil => intro p hp; simp at hp
  | cons q rest =>
    intro p hp
    obtain ⟨hq1, _, _, _⟩ := h
    simp only [List.head?_cons, Option.mem_def, Option.some.injEq] at hp
    subst hp; exact hq1

theorem slicesCover_last {s e : Nat} {l : List (Nat × Nat)} (h : slicesCover s e l) :
    ∀ p ∈ l.getLast?, p.2 = e := by
  induction l generalizing s with
  | nil => intro p hp; simp at hp
  | cons q rest ih =>
    intro p hp
    obtain ⟨hq1, hlt, hle, hrest⟩ := h
    cases rest with
    | nil =>
      simp only [List.getLast?_singleton, Option.mem_def, Option.some.injEq] at hp
      subst hp
      simp only [slicesCover] at hrest
      exact hrest
    | cons r rr =>
      have hp' : p ∈ (r :: rr).getLast? := by
        simpa [List.getLast?_cons_cons] using hp
      exact ih hrest p hp'

theorem buildSlicesGo_trunc (endT width : Nat) :
    ∀ fuel t, ∀ p ∈ buildSlicesGo endT width fuel t, p.2 = min (p.1 + width) endT := by
  intro fuel
  induction fuel with
  | zero => intro t p hp; simp [buildSlicesGo] at hp
  | succ n ih =>
    intro t p hp
    by_cases ht : t < endT
    · simp only [buildSlicesGo, if_pos ht] at hp
      rcases List.mem_cons.mp hp with rfl | hp
      · rfl
      · exact ih _ p hp
    · simp [buildSlicesGo, if_neg ht] at hp

/-- Claim C1: for every valid date range `[start, endT)` with `start < endT`
and every positive slice width, the partitioning step of `single_script.main`
produces a nonempty ordered sequence of slices that are contiguous (each
slice starts where the previous one ends), individually nonempty, whose
union is exactly `[start, endT)`; the first slice starts at `start`, the
last slice ends at `endT`, and every slice is truncated at `endT`
(`p.2 = min (p.1 + width) endT`). Contiguity of nonempty slices also gives
non-overlap. -/
theorem C1_partition (start endT width : Nat) (hse : start < endT) (hw : 1 ≤ width) :
    buildSlices start endT width ≠ []
    ∧ (∀ p ∈ buildSlices start endT width, p.1 < p.2)
    ∧ (∀ i, ∀ hi : i + 1 < (buildSlices start endT width).length,
        ((buildSlices start endT width).get ⟨i, Nat.lt_of_succ_lt hi⟩).2
          = ((buildSlices start endT width).get ⟨i + 1, hi⟩).1)
    ∧ (∀ p ∈ (buildSlices start endT width).head?, p.1 = start)
    ∧ (∀ p ∈ (buildSlices start endT width).getLast?, p.2 = endT)
    ∧ (∀ p ∈ buildSlices start endT width, p.2 = min (p.1 + width) endT)
    ∧ (∀ x, (∃ p ∈ buildSlices start endT width, p.1 ≤ x ∧ x < p.2)
          ↔ (start ≤ x ∧ x < endT)) := by
  have hcov : slicesCover start endT (buildSlices start endT width) :=
    buildSlicesGo_cover endT width hw (endT - start) start (by omega) (by omega)
  exact ⟨slicesCover_nonempty hcov hse,
         slicesCover_pos hcov,
         slicesCover_chain hcov,
         slicesCover_head hcov,
         slicesCover_last hcov,
         buildSlicesGo_trunc endT width (endT - start) start,
         slicesCover_mem_iff hcov⟩

/-- Witness for C1 at the concrete range `[0, 70)` with width `30`
(slices `[0,30), [30,60), [60,70)`). -/
theorem C1_partition_witness :
    (0 : Nat) < 70 ∧ (1 : Nat) ≤ 30
    ∧ (buildSlices 0 70 30 ≠ []
       ∧ (∀ p ∈ buildSlices 0 70 30, p.1 < p.2)
       ∧ (∀ i, ∀ hi : i + 1 < (buildSlices 0 70 30).length,
           ((buildSlices 0 70 30).get ⟨i, Nat.lt_of_succ_lt hi⟩).2
             = ((buildSlices 0 70 30).get ⟨i + 1, hi⟩).1)
       ∧ (∀ p ∈ (buildSlices 0 70 30).head?, p.1 = 0)
       ∧ (∀ p ∈ (buildSlices 0 70 30).getLast?, p.2 = 70)
       ∧ (∀ p ∈ buildSlices 0 70 30, p.2 = min (p.1 + 30) 70)
       ∧ (∀ x, (∃ p ∈ buildSlices 0 70 30, p.1 ≤ x ∧ x < p.2)
             ↔ (0 ≤ x ∧ x < 70))) :=
  ⟨by decide, by decide, C1_partition 0 70 30 (by decide) (by decide)⟩

/-! ## Retry with exponential backoff (teams_importer.py, backoff_try, lines 24–31)

Models

    def backoff_try(fn, *args, **kwargs):
        delay = 1.0
        for i in range(8):
            r = fn(*args, **kwargs)
            if r.status_code in (429, 500, 502, 503, 504):
                time.sleep(delay); delay = min(delay*2, 60); continue
            return r
        return r

The external call `fn` is modelled by `resp : Nat → Nat`, the HTTP status
of the i-th attempt.  The delay values are the integers 1, 2, 4, …
(the Python floats are exactly these integers), and the result records the
final status together with the list of sleeps performed, in order. -/

def retryable (s : Nat) : Bool :=
  s == 429 || s == 500 || s == 502 || s == 503 || s == 504

def backoffGo (resp : Nat → Nat) : Nat → Nat → Nat → Nat → Nat × List Nat
  | 0, _, _, last => (last, [])
  | n + 1, idx, delay, _ =>
    let s := resp idx
    if retryable s then
      let r := backoffGo resp n (idx + 1) (min (delay * 2) 60) s
      (r.1, delay :: r.2)
    else (s, [])

/-- `backoff_try` from `teams_importer.py`: up to 8 attempts, initial delay 1,
doubling and capped at 60; returns (final status, sleeps performed).  The
fourth argument of `backoffGo` carries the last response, returned when the
attempt budget is exhausted (the Python loop keeps `r` in scope). -/
def backoff_try (resp : Nat → Nat) : Nat × List Nat :=
  backoffGo resp 8 0 1 0

theorem backoffGo_delays (resp : Nat → Nat) :
    ∀ n idx d last, 1 ≤ d → d ≤ 60 →
      (backoffGo resp n idx d last).2.length ≤ n
      ∧ (∀ x ∈ (backoffGo resp n idx d last).2, d ≤ x ∧ x ≤ 60)
      ∧ List.Pairwise (· ≤ ·) (backoffGo resp n idx d last).2
      ∧ List.Chain' (fun a b => b = min (2 * a) 60) (backoffGo resp n idx d last).2
      ∧ ((backoffGo resp n idx d last).2 = []
          ∨ (backoffGo resp n idx d last).2.head? = some d) := by
  intro n
  induction n with
  | zero => intro idx d last h1 h60; simp [backoffGo]
  | succ m ih =>
    intro idx d last h1 h60
    by_cases hs : retryable (resp idx)
    · have hd1 : 1 ≤ min (d * 2) 60 := le_min (by omega) (by omega)
      have hd60 : min (d * 2) 60 ≤ 60 := min_le_right _ _
      have hdd : d ≤ min (d * 2) 60 := le_min (by omega) h60
      obtain ⟨ihl, ihb, ihp, ihc, ihh⟩ :=
        ih (idx + 1) (min (d * 2) 60) (resp idx) hd1 hd60
      simp only [backoffGo, hs, if_true]
      refine ⟨by simpa using Nat.succ_le_succ ihl, ?_, ?_, ?_, ?_⟩
      · intro x hx
        rcases List.mem_cons.mp hx with rfl | hx
        · exact ⟨le_refl _, h60⟩
        · have := ihb x hx
          exact ⟨le_trans hdd this.1, this.2⟩
      · refine List.pairwise_cons.mpr ⟨?_, ihp⟩
        intro x hx
        exact le_trans hdd (ihb x hx).1
      · refine List.chain'_cons'.mpr ⟨?_, ihc⟩
        intro b hb
        rcases ihh with hnil | hhd
        · simp [hnil] at hb
        · rw [hhd] at hb
          simp only [Option.mem_def, Option.some.injEq] at hb
          subst hb
          rw [Nat.mul_comm]
        -- b = min (2 * d) 60, matching the update delay = min(delay*2, 60)
      · right; rfl
    · simp only [backoffGo, hs, if_false]
      simp

/-- Claim C6, corrected.  For `backoff_try` of `teams_importer.py`:
(1) a first response whose status is not one of 429/500/502/503/504 — in
particular every 4xx other than 429, but also e.g. 501 — is returned
immediately with no retry and no sleep; (2) a 429 followed by a success is
transparent: the caller observes the success (after a single 1-second
sleep); (3) the attempt budget is 8 and the sleeps performed are
non-decreasing, follow the exponential law `next = min (2*prev) 60`, start
at 1 when present, and never exceed the 60-second cap. -/
theorem C6_backoff (resp : Nat → Nat) :
    (retryable (resp 0) = false → backoff_try resp = (resp 0, []))
    ∧ (resp 0 = 429 → resp 1 = 200 → backoff_try resp = (200, [1]))
    ∧ (backoff_try resp).2.length ≤ 8
    ∧ (∀ x ∈ (backoff_try resp).2, 1 ≤ x ∧ x ≤ 60)
    ∧ List.Pairwise (· ≤ ·) (backoff_try resp).2
    ∧ List.Chain' (fun a b => b = min (2 * a) 60) (backoff_try resp).2
    ∧ ((backoff_try resp).2 = [] ∨ (backoff_try resp).2.head? = some 1) := by
  obtain ⟨hl, hb, hp, hc, hh⟩ := backoffGo_delays resp 8 0 1 0 (by omega) (by omega)
  refine ⟨?_, ?_, hl, hb, hp, hc, hh⟩
  · intro h
    simp [backoff_try, backoffGo, h]
  · intro h0 h1
    have r0 : retryable (resp 0) = true := by simp [retryable, h0]
    have r200 : retryable 200 = false := by decide
    simp [backoff_try, backoffGo, r0, h1, r200]

def c6resp : Nat → Nat := fun i => if i = 0 then 429 else 200

/-- Witness for C6: a 429 followed by a 200 yields the successful result
after a single 1-second sleep. -/
theorem C6_backoff_witness : backoff_try c6resp = (200, [1]) :=
  (C6_backoff c6resp).2.1 rfl rfl

def c6respBad : Nat → Nat := fun i => if i = 0 then 501 else 200

/-- Counterexample to C6 as stated: the claim says every 5xx status is
retried, but status 501 is not in `(429, 500, 502, 503, 504)`; with a
first response of 501 and a second of 200, `backoff_try` returns the 501
immediately (no sleep, no second attempt), not the 200 a retry would
observe. -/
theorem C6_counterexample :
    c6respBad 0 = 501 ∧ (500 ≤ 501 ∧ 501 < 600) ∧ c6respBad 1 = 200
    ∧ backoff_try c6respBad = (501, []) := by
  refine ⟨rfl, by omega, rfl, ?_⟩
  simp [backoff_try, backoffGo, c6respBad, retryable]

/-! ## File upload: single-shot vs resumable session
(teams_importer.py, `upload_small_file`/`upload_large_file` lines 44–73 and
`main` lines 133–139; single_script.py `upload_file` lines 181–204)

`teams_importer.main` dispatches on the file size:

    if size <= 4*1024*1024: upload_small_file(...)
    else:                   upload_large_file(...)

`upload_large_file` opens an upload session and loops:

    sent = 0
    while sent < size:
        to_send = min(chunk, size - sent)          # chunk = 5*1024*1024
        data = f.read(to_send)
        headers = {"Content-Length": str(to_send),
                   "Content-Range": f"bytes {sent}-{sent+to_send-1}/{size}"}
        r = backoff_try(requests.put, upload_url, headers=headers, data=data)
        if r.status_code in (200, 201): return r.json()
        elif r.status_code not in (202,): r.raise_for_status()
        sent += to_send
    raise RuntimeError("Upload session did not complete")

`st : Nat → Nat` is the (post-backoff) status of the k-th chunk request.
`raise_for_status` raises exactly for statuses in `[400, 600)`; any other
non-202, non-200/201 status falls through and the loop continues, which the
embedding reproduces.  The fuel `size` bounds the iteration count whenever
`1 ≤ chunk`. -/

structure ChunkReq where
  offset : Nat
  len : Nat
  total : Nat
  deriving Repr, DecidableEq

inductive UpOutcome where
  | completed : UpOutcome
  | fatal : Nat → UpOutcome
  | incomplete : UpOutcome
  deriving Repr, DecidableEq

def uploadGo (st : Nat → Nat) (size chunk : Nat) : Nat → Nat → Nat → List ChunkReq × UpOutcome
  | 0, _, _ => ([], UpOutcome.incomplete)
  | fuel + 1, sent, k =>
    if sent < size then
      let ts := min chunk (size - sent)
      let req : ChunkReq := ⟨sent, ts, size⟩
      let s := st k
      if s = 200 ∨ s = 201 then ([req], UpOutcome.completed)
      else if 400 ≤ s ∧ s < 600 then ([req], UpOutcome.fatal s)
      else
        let r := uploadGo st size chunk fuel (sent + ts) (k + 1)
        (req :: r.1, r.2)
    else ([], UpOutcome.incomplete)

/-- Default chunk size of `upload_large_file` (`chunk=5*1024*1024`). -/
def chunkSize : Nat := 5 * 1024 * 1024

/-- `upload_large_file` of `teams_importer.py` with its default 5 MiB chunk:
returns the chunk requests issued (offset, length, total for the
Content-Range header `bytes offset-(offset+len-1)/total`) and the outcome. -/
def upload_large_file (st : Nat → Nat) (size : Nat) : List ChunkReq × UpOutcome :=
  uploadGo st size chunkSize size 0 0

/-- The size dispatch in `teams_importer.main` (line 135): `true` selects
the single-shot `upload_small_file`, `false` the resumable session. -/
def chooseSmallUpload (size : Nat) : Bool :=
  size ≤ 4 * 1024 * 1024

theorem uploadGo_nil (st : Nat → Nat) (size chunk : Nat)
    (fuel sent k : Nat) (h : ¬ sent < size) :
    (uploadGo st size chunk fuel sent k).1 = [] := by
  cases fuel with
  | zero => rfl
  | succ n => simp [uploadGo, h]

theorem uploadGo_succ_eq (st : Nat → Nat) (size chunk fuel sent k : Nat)
    (hlt : sent < size) :
    uploadGo st size chunk (fuel + 1) sent k
      = (if st k = 200 ∨ st k = 201 then
           ([⟨sent, min chunk (size - sent), size⟩], UpOutcome.completed)
         else if 400 ≤ st k ∧ st k < 600 then
           ([⟨sent, min chunk (size - sent), size⟩], UpOutcome.fatal (st k))
         else
           (⟨sent, min chunk (size - sent), size⟩
              :: (uploadGo st size chunk fuel (sent + min chunk (size - sent)) (k + 1)).1,
            (uploadGo st size chunk fuel (sent + min chunk (size - sent)) (k + 1)).2)) := by
  simp [uploadGo, hlt]

theorem uploadGo_reqs (st : Nat → Nat) (size chunk : Nat) :
    ∀ fuel sent k i, ∀ hi : i < (uploadGo st size chunk fuel sent k).1.length,
      (uploadGo st size chunk fuel sent k).1.get ⟨i, hi⟩
        = ⟨sent + i * chunk, min chunk (size - (sent + i * chunk)), size⟩
      ∧ sent + i * chunk < size := by
  intro fuel
  induction fuel with
  | zero => intro sent k i hi; simp [uploadGo] at hi
  | succ n ih =>
    intro sent k i
    by_cases hlt : sent < size
    · rw [uploadGo_succ_eq st size chunk n sent k hlt]
      by_cases h1 : st k = 200 ∨ st k = 201
      · rw [if_pos h1]
        intro hi
        cases i with
        | zero => exact ⟨by simp, by simpa using hlt⟩
        | succ j => simp at hi
      · rw [if_neg h1]
        by_cases h2 : 400 ≤ st k ∧ st k < 600
        · rw [if_pos h2]
          intro hi
          cases i with
          | zero => exact ⟨by simp, by simpa using hlt⟩
          | succ j => simp at hi
        · rw [if_neg h2]
          intro hi
          cases i with
          | zero => exact ⟨by simp, by simpa using hlt⟩
          | succ j =>
            have hj' : j < (uploadGo st size chunk n
                (sent + min chunk (size - sent)) (k + 1)).1.length := by
              simpa using hi
            have hrest : sent + min chunk (size - sent) < size := by
              by_contra hcon
              rw [uploadGo_nil st size chunk n _ (k + 1) hcon] at hj'
              simp at hj'
            have hts : min chunk (size - sent) = chunk := by
              rcases Nat.le_total chunk (size - sent) with hc | hc
              · exact Nat.min_eq_left hc
              · rw [Nat.min_eq_right hc] at hrest ⊢
                omega
            have hj := ih (sent + min chunk (size - sent)) (k + 1) j hj'
            have e1 : sent + min chunk (size - sent) + j * chunk
                = sent + (j + 1) * chunk := by
              rw [hts]; ring
            have e2 : (⟨sent + min chunk (size - sent) + j * chunk,
                min chunk (size - (sent + min chunk (size - sent) + j * chunk)),
                size⟩ : ChunkReq)
                = ⟨sent + (j + 1) * chunk,
                    min chunk (size - (sent + (j + 1) * chunk)), size⟩ := by
              rw [e1]
            refine ⟨hj.1.trans e2, ?_⟩
            have := hj.2
            omega
    · intro hi
      rw [uploadGo_nil st size chunk (n + 1) sent k hlt] at hi
      simp at hi

/-- Claim C8: the uploader dispatches to a single-shot upload exactly when
the file size is at most 4 MiB and otherwise runs the resumable session;
the session streams chunks strictly in order — the i-th request covers
bytes `[i·5MiB, i·5MiB + len)` of the file with
`len = min 5MiB (size − i·5MiB)` announced in its Content-Range header,
every non-final chunk is exactly 5 MiB, consecutive chunks are contiguous —
and a 200/201 chunk response returns immediately (completed) while a 202
response continues the loop with the next chunk. -/
theorem C8_upload (st : Nat → Nat) (size : Nat) :
    (chooseSmallUpload size = true ↔ size ≤ 4 * 1024 * 1024)
    ∧ (∀ i, ∀ hi : i < (upload_large_file st size).1.length,
        (upload_large_file st size).1.get ⟨i, hi⟩
          = ⟨i * chunkSize, min chunkSize (size - i * chunkSize), size⟩
        ∧ i * chunkSize < size)
    ∧ (∀ i, ∀ hi : i + 1 < (upload_large_file st size).1.length,
        ((upload_large_file st size).1.get ⟨i, Nat.lt_of_succ_lt hi⟩).len = chunkSize
        ∧ ((upload_large_file st size).1.get ⟨i + 1, hi⟩).offset
            = ((upload_large_file st size).1.get ⟨i, Nat.lt_of_succ_lt hi⟩).offset
              + ((upload_large_file st size).1.get ⟨i, Nat.lt_of_succ_lt hi⟩).len)
    ∧ (∀ fuel sent k, sent < size → (st k = 200 ∨ st k = 201) →
        uploadGo st size chunkSize (fuel + 1) sent k
          = ([⟨sent, min chunkSize (size - sent), size⟩], UpOutcome.completed))
    ∧ (∀ fuel sent k, sent < size → st k = 202 →
        uploadGo st size chunkSize (fuel + 1) sent k
          = (⟨sent, min chunkSize (size - sent), size⟩
               :: (uploadGo st size chunkSize fuel
                     (sent + min chunkSize (size - sent)) (k + 1)).1,
             (uploadGo st size chunkSize fuel
                 (sent + min chunkSize (size - sent)) (k + 1)).2)) := by
  refine ⟨by simp [chooseSmallUpload], ?_, ?_, ?_, ?_⟩
  · intro i hi
    have h := uploadGo_reqs st size chunkSize size 0 0 i hi
    simpa using h
  · intro i hi
    have h0 := uploadGo_reqs st size chunkSize size 0 0 i (Nat.lt_of_succ_lt hi)
    have h1 := uploadGo_reqs st size chunkSize size 0 0 (i + 1) hi
    have hlen : min chunkSize (size - (0 + i * chunkSize)) = chunkSize := by
      have hx := h1.2
      have harith : 0 + (i + 1) * chunkSize = 0 + i * chunkSize + chunkSize := by ring
      refine Nat.min_eq_left ?_
      omega
    constructor
    · show ((uploadGo st size chunkSize size 0 0).1.get
          ⟨i, Nat.lt_of_succ_lt hi⟩).len = chunkSize
      rw [h0.1]
      exact hlen
    · show ((uploadGo st size chunkSize size 0 0).1.get ⟨i + 1, hi⟩).offset
          = ((uploadGo st size chunkSize size 0 0).1.get
              ⟨i, Nat.lt_of_succ_lt hi⟩).offset
            + ((uploadGo st size chunkSize size 0 0).1.get
                ⟨i, Nat.lt_of_succ_lt hi⟩).len
      rw [h0.1, h1.1]
      show 0 + (i + 1) * chunkSize
          = 0 + i * chunkSize + min chunkSize (size - (0 + i * chunkSize))
      rw [hlen]
      ring
  · intro fuel sent k hlt hok
    simp [uploadGo, if_pos hlt, hok]
  · intro fuel sent k hlt h202
    have hn1 : ¬ (st k = 200 ∨ st k = 201) := by omega
    have hn2 : ¬ (400 ≤ st k ∧ st k < 600) := by omega
    simp [uploadGo, if_pos hlt, hn1, hn2]

def c8status : Nat → Nat := fun i => if i = 0 then 202 else 200

/-- Witness for C8 at a concrete 6 MiB file: the dispatch picks the
resumable session, the first chunk (bytes 0–5242879 of 6291456) gets a 202
and the loop continues, the second chunk (bytes 5242880–6291455) gets a
200 and completes; the non-final chunk is exactly 5 MiB. -/
theorem C8_upload_witness :
    (chooseSmallUpload 6291456 = true ↔ 6291456 ≤ 4 * 1024 * 1024)
    ∧ upload_large_file c8status 6291456
        = ([⟨0, 5242880, 6291456⟩, ⟨5242880, 1048576, 6291456⟩], UpOutcome.completed) := by
  constructor
  · exact (C8_upload c8status 6291456).1
  · have hcont := (C8_upload c8status 6291456).2.2.2.2 6291455 0 0 (by decide) (by decide)
    have hdone := (C8_upload c8status 6291456).2.2.2.1 6291454 5242880 1 (by decide)
      (Or.inl (by decide))
    rw [upload_large_file]
    show uploadGo c8status 6291456 chunkSize (6291455 + 1) 0 0 = _
    rw [hcont]
    have : (6291456 : Nat) - 0 = 6291456 := by decide
    rw [show (0 : Nat) + min chunkSize (6291456 - 0) = 5242880 from by decide] at *
    rw [show (6291455 : Nat) = 6291454 + 1 from rfl] at *
    rw [hdone]
    decide

/-! ## Takeout transform (gchat_takeout_to_teams.py, transform_conversation, lines 44–122)

Data model of the raw Takeout records and of the produced Teams payloads.
Python truthiness of optional strings (`a or b` falls through on `None`
and on `""`) is modelled by `pyOr`; the local filesystem by a `FileSys`
record of oracles; `datetime.fromisoformat`-based `iso_ensure_z` by a
parser parameter `String → Option String` where `none` models the raised
`ValueError`; base64 of the file bytes by carrying the raw bytes (base64
is a fixed injective encoding, irrelevant to every claim). -/

/-- Python `a or b` for an optional string `a` (both `None` and `""` are
falsy) and a string default `b`. -/
def pyOr (a : Option String) (b : String) : String :=
  match a with
  | some s => if s = "" then b else s
  | none => b

/-- Python `a or b` where both operands are optional strings; returns `b`
unchanged (whatever it is) when `a` is falsy. -/
def pyOrOpt (a b : Option String) : Option String :=
  match a with
  | some s => if s = "" then b else some s
  | none => b

/-- Per-character HTML escaping as done by Python `html.escape` (default
`quote=True`): `&` → `&amp;`, `<` → `&lt;`, `>` → `&gt;`, `"` → `&quot;`,
`'` → `&#x27;`.  Character codes are used for the quote characters. -/
def escapeChar (c : Char) : String :=
  if c.toNat = 38 then "&amp;"
  else if c.toNat = 60 then "&lt;"
  else if c.toNat = 62 then "&gt;"
  else if c.toNat = 34 then "&quot;"
  else if c.toNat = 39 then "&#x27;"
  else String.singleton c

def escapeList : List Char → String
  | [] => ""
  | c :: cs => escapeChar c ++ escapeList cs

/-- `html.escape(text)` (replacement applied characterwise; Python replaces
`&` first, which is equivalent to the characterwise map). -/
def escapeHtml (s : String) : String := escapeList s.data

/-- `os.path.basename` for the forward-slash paths built by the transform:
the characters after the last `/` (char code 47). -/
def basenameGo : List Char → List Char → List Char
  | [], acc => acc.reverse
  | c :: cs, acc =>
    if c.toNat = 47 then basenameGo cs [] else basenameGo cs (c :: acc)

def basename (p : String) : String := String.mk (basenameGo p.data [])

/-- The whitespace characters stripped by Python `str.strip()` (space, tab,
newline, carriage return, vertical tab, form feed). -/
def isSpaceChar (c : Char) : Bool :=
  c.toNat = 32 || c.toNat = 9 || c.toNat = 10 || c.toNat = 13
    || c.toNat = 11 || c.toNat = 12

def dropLeadingSpaces : List Char → List Char
  | [] => []
  | c :: cs => if isSpaceChar c then dropLeadingSpaces cs else c :: cs

/-- Python `str.strip()`: whitespace removed from both ends. -/
def pyStrip (s : String) : String :=
  String.mk ((dropLeadingSpaces (dropLeadingSpaces s.data).reverse).reverse)

/-- Python `str.lower()` (ASCII case mapping, as used for emails and
content types). -/
def pyLower (s : String) : String := String.mk (s.data.map Char.toLower)

def startsWithChars : List Char → List Char → Bool
  | [], _ => true
  | _ :: _, [] => false
  | p :: ps, c :: cs => p == c && startsWithChars ps cs

/-- Python `str.startswith(pre)`. -/
def pyStartsWith (s pre : String) : Bool := startsWithChars pre.data s.data

structure RawAttachment where
  contentType : Option String
  filePath : Option String
  path : Option String
  name : Option String
  deriving Repr, DecidableEq

structure Creator where
  email : Option String
  id : Option String
  displayName : Option String
  deriving Repr, DecidableEq

structure RawMessage where
  createTime : Option String
  createdTime : Option String
  created_at : Option String
  text : Option String
  creator : Option Creator
  sender : Option Creator
  attachments : List RawAttachment
  deriving Repr, DecidableEq

/-- Oracles for the local filesystem: `os.path.exists`, `os.path.getsize`
and the bytes read for base64 embedding. -/
structure FileSys where
  pathExists : String → Bool
  getsize : String → Nat
  readBytes : String → List Nat

structure HostedContent where
  temporaryId : String
  contentBytes : List Nat
  contentType : String
  deriving Repr, DecidableEq

structure FromUser where
  id : String
  displayName : String
  userIdentityType : String
  deriving Repr, DecidableEq

/-- A Teams chatMessage payload as written to the jsonl queue (an empty
`hostedContents` models the omitted key). -/
structure Payload where
  createdDateTime : Option String
  fromUser : FromUser
  bodyContent : String
  hostedContents : List HostedContent
  deriving Repr, DecidableEq

/-- One row of `<channel_key>_files_manifest.csv`
(`source_path, suggested_name, message_index`).  `os.path.abspath` is
modelled as the identity on the already-joined path. -/
structure ManifestRow where
  source_path : String
  suggested_name : String
  message_index : Nat
  deriving Repr, DecidableEq

/-- `created = m.get("createTime") or m.get("createdTime") or m.get("created_at") or ""`. -/
def createdOf (m : RawMessage) : String :=
  pyOr m.createTime (pyOr m.createdTime (pyOr m.created_at ""))

/-- `creator = (m.get("creator") or m.get("sender") or {})` (a present
dict is modelled as `some`; the empty fallback dict has every key absent). -/
def creatorOf (m : RawMessage) : Creator :=
  match m.creator with
  | some c => c
  | none =>
    match m.sender with
    | some c => c
    | none => { email := none, id := none, displayName := none }

/-- The guess loop resolving an attachment to a local file:

    for guess in [att.get("filePath"), att.get("path"), att.get("name")]:
        if guess:
            p = os.path.join(conv_path, guess)
            if os.path.exists(p): file_path = p; break
-/
def resolveAttachment (fs : FileSys) (convPath : String) (att : RawAttachment) : Option String :=
  let tryGuess := fun (g : Option String) =>
    match g with
    | some s =>
      if s = "" then none
      else
        let p := convPath ++ "/" ++ s
        if fs.pathExists p then some p else none
    | none => none
  (tryGuess att.filePath).orElse fun _ => (tryGuess att.path).orElse fun _ => tryGuess att.name

/-- State threaded through the attachment loop of one message. -/
structure AttState where
  bodyHtml : String
  hosted : List HostedContent
  tempId : Nat
  manifest : List ManifestRow
  deriving Repr, DecidableEq

/-- One iteration of `for att in atts` in `transform_conversation`:
either embed an inline image as a hosted content (declared image content
type, resolvable existing file, size strictly under 4 MiB) or queue a
manifest row; an attachment that resolves to no existing file is dropped. -/
def attStep (fs : FileSys) (convPath : String) (inline_images : Bool) (i : Nat)
    (st : AttState) (att : RawAttachment) : AttState :=
  let content_type := pyLower (pyOr att.contentType "")
  match resolveAttachment fs convPath att with
  | some fp =>
    if inline_images && pyStartsWith content_type "image/"
        && decide (fs.getsize fp < 4 * 1024 * 1024) then
      { bodyHtml := st.bodyHtml ++ "<div>../hostedContents/"
          ++ toString st.tempId ++ "/$value</div>"
      , hosted := st.hosted
          ++ [{ temporaryId := toString st.tempId
              , contentBytes := fs.readBytes fp
              , contentType := if content_type = "" then "image/png" else content_type }]
      , tempId := st.tempId + 1
      , manifest := st.manifest }
    else
      { st with manifest := st.manifest
          ++ [{ source_path := fp, suggested_name := basename fp, message_index := i }] }
  | none => st

/-- The transform of one raw message at index `i`:
timestamp fallback chain, author resolution through the identity table,
HTML body with escaped text, attachment processing, and payload assembly.
`isoZ` models `iso_ensure_z` (`none` = `ValueError` raised by
`datetime.fromisoformat`); the raised error aborts the message (and, lifted
by `transformGo`, the whole conversation), carrying the offending string. -/
def transformMessage (isoZ : String → Option String) (fs : FileSys) (convPath : String)
    (userMap : String → Option String) (inline_images : Bool) (i : Nat) (m : RawMessage) :
    Except String (Payload × List ManifestRow) :=
  let created := createdOf m
  let text := pyStrip (pyOr m.text "")
  let creator := creatorOf m
  let g_email := pyLower (pyOr creator.email (pyOr creator.id ""))
  let aad := userMap g_email
  let body0 := if text = "" then "<div></div>" else "<div>" ++ escapeHtml text ++ "</div>"
  let st := m.attachments.foldl (attStep fs convPath inline_images i)
    { bodyHtml := body0, hosted := [], tempId := 1, manifest := [] }
  match (if created = "" then some none else (isoZ created).map some) with
  | none => Except.error created
  | some cdt =>
    Except.ok
      ({ createdDateTime := cdt
       , fromUser :=
           { id := pyOr aad ""
           , displayName := pyOr creator.displayName ""
           , userIdentityType := if pyOr aad "" = "" then "unknownFutureValue" else "aadUser" }
       , bodyContent := st.bodyHtml
       , hostedContents := st.hosted }, st.manifest)

/-- The `for i, m in enumerate(msgs)` loop: any raised error aborts the
run (the Python loop has no try/except); on success the payloads are the
jsonl lines in order and the manifest rows are concatenated in order. -/
def transformGo (isoZ : String → Option String) (fs : FileSys) (convPath : String)
    (userMap : String → Option String) (inline_images : Bool) :
    Nat → List RawMessage → Except String (List Payload × List ManifestRow)
  | _, [] => Except.ok ([], [])
  | i, m :: rest =>
    match transformMessage isoZ fs convPath userMap inline_images i m with
    | Except.error e => Except.error e
    | Except.ok pr =>
      match transformGo isoZ fs convPath userMap inline_images (i + 1) rest with
      | Except.error e => Except.error e
      | Except.ok prs => Except.ok (pr.1 :: prs.1, pr.2 ++ prs.2)

/-- `transform_conversation` of `gchat_takeout_to_teams.py` on an
already-parsed message list: the produced queue payloads and manifest rows,
or the error that aborted the run. -/
def transform_conversation (isoZ : String → Option String) (fs : FileSys) (convPath : String)
    (userMap : String → Option String) (inline_images : Bool) (msgs : List RawMessage) :
    Except String (List Payload × List ManifestRow) :=
  transformGo isoZ fs convPath userMap inline_images 0 msgs

/-! ## Single-script transform (single_script.py, build_teams_payloads, lines 135–169)

The monolithic variant builds each payload with

    when = m.get("createTime") or m.get("createdTime")
    text = m.get("text") or ""
    sender_email = (m.get("creator") or {}).get("email", "").lower()
    aad_id = user_map.get(sender_email, "")
    html = f"<div>{text}</div>"

Note the body wraps the raw text with NO escaping.  `hosted` stays empty
and `files_for_upload` stays empty in this variant (the inline-image branch
is an unimplemented comment in the source). -/

structure SSMessage where
  createTime : Option String
  createdTime : Option String
  text : Option String
  creatorEmail : Option String
  deriving Repr, DecidableEq

structure SSPayload where
  createdDateTime : Option String
  fromUserId : String
  fromUserIdentityType : String
  bodyContent : String
  deriving Repr, DecidableEq

/-- One iteration of the `for i, m in enumerate(messages)` loop of
`build_teams_payloads`.  `user_map` models the Python dict with
`.get(key, "")` semantics (absent key ↦ `""`). -/
def build_teams_payload (user_map : String → String) (m : SSMessage) : SSPayload :=
  let when := pyOrOpt m.createTime m.createdTime
  let text := pyOr m.text ""
  let sender_email := pyLower (pyOr m.creatorEmail "")
  let aad_id := user_map sender_email
  { createdDateTime := when
  , fromUserId := aad_id
  , fromUserIdentityType := if aad_id = "" then "unknownFutureValue" else "aadUser"
  , bodyContent := "<div>" ++ text ++ "</div>" }

/-- `build_teams_payloads` of `single_script.py`: payload list plus the
(always empty) `files_for_upload` manifest. -/
def build_teams_payloads (user_map : String → String) (msgs : List SSMessage) :
    List SSPayload × List (String × String × Nat) :=
  (msgs.map (build_teams_payload user_map), [])

/-! ## Replay orchestration (teams_importer.py, main, lines 100–166)

Step 4 of `main` posts the queue:

    with open(q_path, encoding="utf-8") as q:
        for line in q:
            msg = json.loads(line)
            if web_urls_by_path:
                links_html = "".join([f'<div>{u}{u}</a></div>' for u in web_urls_by_path.values()])
                msg["body"]["content"] = msg["body"]["content"] + links_html
            post_import_message(token, team_id, channel_id, msg)
            count += 1

No checkpoint file is read or written anywhere in `main`: the loop always
starts at the first line of the queue.  `urls` models
`web_urls_by_path.values()` in insertion order.  The surrounding lifecycle
is `start_channel_migration` (step 1), the upload loop (step 3), the post
loop (step 4) and `complete_channel_migration` (step 5), executed in
sequence with no try/except or try/finally: any exception raised in
between propagates out of `main` immediately. -/

/-- The appended links section, literally `f'<div>{u}{u}</a></div>'` per
uploaded URL. -/
def links_html (urls : List String) : String :=
  String.join (urls.map (fun u => "<div>" ++ u ++ u ++ "</a></div>"))

/-- Body enrichment applied to every message of the queue: when any upload
happened, the full links section is appended, with no reference to which
message a file belonged to. -/
def enrich (urls : List String) (msg : Payload) : Payload :=
  if urls.isEmpty then msg
  else { msg with bodyContent := msg.bodyContent ++ links_html urls }

/-- The posting loop of `teams_importer.main` step 4: returns the posted
messages in order together with the final `count`. -/
def post_loop (urls : List String) : List Payload → List Payload × Nat
  | [] => ([], 0)
  | m :: rest =>
    let msg := enrich urls m
    let r := post_loop urls rest
    (msg :: r.1, r.2 + 1)

theorem post_loop_spec (urls : List String) (q : List Payload) :
    post_loop urls q = (q.map (enrich urls), q.length) := by
  induction q with
  | nil => rfl
  | cons m rest ih => simp [post_loop, ih]

/-- `post_import_message` failure oracle: `postOk i` is whether posting the
i-th message succeeds (`raise_for_status` after the backoff budget). -/
def post_phase (postOk : Nat → Bool) : Nat → List Payload → Nat × Bool
  | _, [] => (0, true)
  | i, _ :: rest =>
    if postOk i then
      let r := post_phase postOk (i + 1) rest
      (r.1 + 1, r.2)
    else (0, false)

/-- Outcome of one `teams_importer.main` run after a successful
`start_channel_migration`: whether an exception propagated (`raised`),
and whether `complete_channel_migration` (step 5) was reached. -/
structure MainResult where
  startCalled : Bool
  postedCount : Nat
  completeCalled : Bool
  raised : Bool
  deriving Repr, DecidableEq

/-- `teams_importer.main` from step 4 on (migration already started):
posts messages until the first failure; `complete_channel_migration` runs
only if the whole loop finished, since there is no try/finally. -/
def importer_main (postOk : Nat → Bool) (queue : List Payload) : MainResult :=
  let r := post_phase postOk 0 queue
  { startCalled := true, postedCount := r.1, completeCalled := r.2, raised := !r.2 }

theorem post_phase_ok_iff (postOk : Nat → Bool) :
    ∀ q i, (post_phase postOk i q).2 = true
      ↔ ∀ j, j < q.length → postOk (i + j) = true := by
  intro q
  induction q with
  | nil => intro i; simp [post_phase]
  | cons m rest ih =>
    intro i
    by_cases h : postOk i
    · simp only [post_phase, if_pos h]
      rw [ih (i + 1)]
      constructor
      · intro hall j hj
        cases j with
        | zero => simpa using h
        | succ j' =>
          have := hall j' (by simpa using Nat.lt_of_succ_lt_succ hj)
          rw [show i + (j' + 1) = i + 1 + j' from by ring]
          exact this
      · intro hall j hj
        have := hall (j + 1) (by simpa using Nat.succ_lt_succ hj)
        rw [show i + 1 + j = i + (j + 1) from by ring]
        exact this
    · simp only [post_phase, if_neg h]
      constructor
      · intro hfalse; cases hfalse
      · intro hall
        exact absurd (by simpa using hall 0 (by simp)) h

/-! ## Claims C2, C3, C10 — replay orchestration -/

def c2p1 : Payload :=
  { createdDateTime := some "t1"
  , fromUser := { id := "", displayName := "", userIdentityType := "unknownFutureValue" }
  , bodyContent := "<div>m1</div>", hostedContents := [] }

def c2p2 : Payload :=
  { createdDateTime := some "t2"
  , fromUser := { id := "", displayName := "", userIdentityType := "unknownFutureValue" }
  , bodyContent := "<div>m2</div>", hostedContents := [] }

/-- Counterexample to C2 as stated: suppose a first run of
`teams_importer.main` over the two-message queue `[c2p1, c2p2]` was
interrupted after successfully posting message 1 (k = 1 of n = 2).
Re-running the import runs the same loop over the same queue file from its
first line — `main` neither reads nor writes any checkpoint — so the
re-run posts both messages, and its first post is message 1 again,
contradicting "posts only messages k+1..n and never re-posts messages
1..k". -/
theorem C2_counterexample :
    (post_loop [] [c2p1, c2p2]).1 = [c2p1, c2p2]
    ∧ (post_loop [] [c2p1, c2p2]).1.head? = some c2p1 := by
  constructor <;> rfl

/-- Claim C2, corrected: re-running the import for the same conversation
replays the entire queue: the run posts all `n` queued messages in order,
and for every `k ≤ n` its first `k` posts are exactly the (enriched)
messages `1..k` that an interrupted earlier run had already posted — they
are double-posted.  No checkpoint of the last successfully posted index
exists, is persisted, or is consulted. -/
theorem C2_rerun_reposts (urls : List String) (queue : List Payload) (k : Nat)
    (_hk : k ≤ queue.length) :
    (post_loop urls queue).2 = queue.length
    ∧ (post_loop urls queue).1.length = queue.length
    ∧ (post_loop urls queue).1.take k = (queue.take k).map (enrich urls) := by
  rw [post_loop_spec]
  refine ⟨rfl, by simp, ?_⟩
  simp [List.map_take]

/-- Witness for C2 (corrected) at the concrete queue `[c2p1, c2p2]` with
`k = 1`. -/
theorem C2_rerun_reposts_witness :
    (post_loop [] [c2p1, c2p2]).2 = 2
    ∧ (post_loop [] [c2p1, c2p2]).1.length = 2
    ∧ (post_loop [] [c2p1, c2p2]).1.take 1 = ([c2p1, c2p2].take 1).map (enrich []) :=
  C2_rerun_reposts [] [c2p1, c2p2] 1 (by decide)

/-- Counterexample to C3 as stated: with a queue of one message whose post
fails fatally (a non-retryable status raised by `raise_for_status` while
the channel is in migration mode), `main` propagates the exception at once
and `complete_channel_migration` is never reached, leaving the channel in
migration mode — contradicting "the orchestrator still attempts
completeMigration (or an explicit abort) before the error is surfaced". -/
theorem C3_counterexample :
    importer_main (fun _ => false) [c2p1]
      = { startCalled := true, postedCount := 0, completeCalled := false, raised := true } :=
  rfl

/-- Claim C3, corrected: on any fatal error raised between
`start_channel_migration` and `complete_channel_migration`, the exception
propagates immediately — there is no try/finally and no abort call — so
`completeMigration` is NOT attempted and the conversation stays in
migration mode; `completeMigration` is reached exactly when every post
succeeds. -/
theorem C3_no_complete_on_error (postOk : Nat → Bool) (queue : List Payload) :
    ((importer_main postOk queue).raised = true →
        (importer_main postOk queue).completeCalled = false)
    ∧ ((importer_main postOk queue).completeCalled = true
        ↔ ∀ j, j < queue.length → postOk j = true)
    ∧ (importer_main postOk queue).raised
        = !(importer_main postOk queue).completeCalled := by
  refine ⟨?_, ?_, rfl⟩
  · intro h
    simp only [importer_main] at h ⊢
    simpa using h
  · have := post_phase_ok_iff postOk queue 0
    simp only [importer_main]
    simpa using this

/-- Witness for C3 (corrected): with every post succeeding on a one-message
queue, the completion step is reached. -/
theorem C3_no_complete_on_error_witness :
    (importer_main (fun _ => true) [c2p1]).completeCalled = true :=
  (C3_no_complete_on_error (fun _ => true) [c2p1]).2.1.mpr (fun _ _ => rfl)

/-- Claim C10: when at least one deferred file was uploaded, every posted
message gets the complete links section — the same `links_html urls`,
listing all uploaded URLs — appended to its body; the enrichment never
consults the manifest's `message_index`, so no message receives only the
links of the files it owns. -/
theorem C10_all_links (urls : List String) (queue : List Payload) (h : urls ≠ [])
    (i : Nat) :
    (post_loop urls queue).1[i]?
      = (queue[i]?).map
          (fun m => { m with bodyContent := m.bodyContent ++ links_html urls }) := by
  rw [post_loop_spec]
  simp only [List.getElem?_map]
  have hne : urls.isEmpty = false := by
    cases urls with
    | nil => exact absurd rfl h
    | cons a l => rfl
  have he : ∀ m, enrich urls m
      = { m with bodyContent := m.bodyContent ++ links_html urls } := by
    intro m
    rw [enrich, hne]
    rfl
  cases queue[i]? with
  | none => rfl
  | some m => simp [he]

/-- Witness for C10: a single uploaded URL is appended to the (only)
posted message's body. -/
theorem C10_all_links_witness :
    (post_loop ["u"] [c2p1]).1[0]?
      = ([c2p1][0]?).map
          (fun m => { m with bodyContent := m.bodyContent ++ links_html ["u"] }) :=
  C10_all_links ["u"] [c2p1] (by decide) 0

/-! ## Claims C4, C5 — transform error handling and inline boundary -/

/-- The timestamp parser used in the C4 scenarios: `"bad"` is unparseable
(`datetime.fromisoformat` raises `ValueError`), everything else parses. -/
def iso4 : String → Option String := fun s => if s = "bad" then none else some s

def fs4 : FileSys := ⟨fun _ => false, fun _ => 0, fun _ => []⟩

def c4msg (t : String) : RawMessage :=
  { createTime := some t, createdTime := none, created_at := none
  , text := some "hi", creator := none, sender := none, attachments := [] }

/-- Counterexample to C4 as stated: a three-message conversation whose
second message has the unparseable creation timestamp `"bad"`.  The claim
says the bad message is skipped and the remaining messages are transformed
to completion; instead `transform_conversation` aborts with the raised
error — there is no try/except around the loop — and no completed output
for messages 1 and 3 exists. -/
theorem C4_counterexample :
    transform_conversation iso4 fs4 "c" (fun _ => none) true
        [c4msg "t1", c4msg "bad", c4msg "t3"]
      = Except.error "bad" := by
  rfl

/-- Claim C4, corrected: an unparseable nonempty creation timestamp raises
an error that aborts the transform of the entire conversation — the bad
message is not skipped, nothing is logged, and the remaining messages are
not processed; the error propagates from the message to the whole run.  A
missing or empty timestamp is not an error: the payload is emitted with a
null `createdDateTime`.  No default timestamp is ever substituted for an
unparseable one (no payload at all is produced for it). -/
theorem C4_abort_on_bad_timestamp (isoZ : String → Option String) (fs : FileSys)
    (convPath : String) (umap : String → Option String) (inl : Bool) :
    (∀ i m, createdOf m ≠ "" → isoZ (createdOf m) = none →
        transformMessage isoZ fs convPath umap inl i m = Except.error (createdOf m))
    ∧ (∀ i m rest e, transformMessage isoZ fs convPath umap inl i m = Except.error e →
        transformGo isoZ fs convPath umap inl i (m :: rest) = Except.error e)
    ∧ (∀ i m, createdOf m = "" →
        ∃ pr, transformMessage isoZ fs convPath umap inl i m = Except.ok pr
          ∧ pr.1.createdDateTime = none) := by
  refine ⟨?_, ?_, ?_⟩
  · intro i m h1 h2
    simp [transformMessage, h1, h2]
  · intro i m rest e h
    simp [transformGo, h]
  · intro i m h
    simp only [transformMessage]
    rw [if_pos h]
    exact ⟨_, rfl, rfl⟩

/-- Witness for C4 (corrected): the bad message aborts, the empty-timestamp
message succeeds with a null timestamp. -/
theorem C4_abort_on_bad_timestamp_witness :
    transformMessage iso4 fs4 "c" (fun _ => none) true 1 (c4msg "bad")
      = Except.error "bad" :=
  (C4_abort_on_bad_timestamp iso4 fs4 "c" (fun _ => none) true).1 1 (c4msg "bad")
    (by decide) (by decide)

/-- Claim C5: the per-attachment step of `transform_conversation` appends
an inline (hosted-content) asset exactly when inlining is enabled, the
declared content type is an image subtype, the attachment resolves to an
existing local file, and that file's size is strictly less than 4 MiB; an
attachment that resolves to a file of exactly `4*1024*1024` bytes is never
inlined and is recorded in the file manifest instead. -/
theorem C5_inline_boundary (fs : FileSys) (convPath : String) (inline_images : Bool)
    (i : Nat) (st : AttState) (att : RawAttachment) :
    ((attStep fs convPath inline_images i st att).hosted.length = st.hosted.length + 1
      ↔ (inline_images = true
         ∧ pyStartsWith (pyLower (pyOr att.contentType "")) "image/" = true
         ∧ ∃ fp, resolveAttachment fs convPath att = some fp
             ∧ fs.getsize fp < 4 * 1024 * 1024))
    ∧ (∀ fp, resolveAttachment fs convPath att = some fp →
        fs.getsize fp = 4 * 1024 * 1024 →
          (attStep fs convPath inline_images i st att).hosted = st.hosted
        ∧ (attStep fs convPath inline_images i st att).manifest
            = st.manifest ++ [{ source_path := fp, suggested_name := basename fp
                              , message_index := i }]) := by
  constructor
  · cases hres : resolveAttachment fs convPath att with
    | none =>
      simp only [attStep, hres]
      refine iff_of_false (by omega) ?_
      rintro ⟨_, _, fp, hfp, _⟩
      cases hfp
    | some fp =>
      simp only [attStep, hres]
      by_cases hcond : inline_images
          && pyStartsWith (pyLower (pyOr att.contentType "")) "image/"
          && decide (fs.getsize fp < 4 * 1024 * 1024)
      · rw [if_pos hcond]
        simp only [Bool.and_eq_true, decide_eq_true_eq] at hcond
        refine iff_of_true (by simp) ?_
        exact ⟨hcond.1.1, hcond.1.2, fp, rfl, hcond.2⟩
      · rw [if_neg hcond]
        refine iff_of_false (by simp) ?_
        rintro ⟨h1, h2, fp', hfp', h3⟩
        injection hfp' with e
        subst e
        exact hcond (by simp [h1, h2, h3])
  · intro fp hfp hsz
    have hcond : (inline_images
        && pyStartsWith (pyLower (pyOr att.contentType "")) "image/"
        && decide (fs.getsize fp < 4 * 1024 * 1024)) = false := by
      rw [hsz]
      simp
    simp only [attStep, hfp]
    rw [if_neg (by simp [hcond])]
    exact ⟨rfl, rfl⟩

def c5fs : FileSys := ⟨fun _ => true, fun _ => 4 * 1024 * 1024, fun _ => []⟩

def c5att : RawAttachment :=
  { contentType := some "image/png", filePath := some "pic.png", path := none, name := none }

def c5st : AttState := { bodyHtml := "<div></div>", hosted := [], tempId := 1, manifest := [] }

/-- Witness for C5: an attachment of exactly 4 MiB — even a declared image
with an existing file — is not inlined and lands in the manifest. -/
theorem C5_inline_boundary_witness :
    (attStep c5fs "c" true 0 c5st c5att).hosted = c5st.hosted
    ∧ (attStep c5fs "c" true 0 c5st c5att).manifest
        = c5st.manifest ++ [{ source_path := "c/pic.png"
                            , suggested_name := basename "c/pic.png", message_index := 0 }] :=
  (C5_inline_boundary c5fs "c" true 0 c5st c5att).2 "c/pic.png" (by decide) (by decide)

/-! ## Claim C7 — HTML escaping of the message body -/

theorem escapeChar_safe (a c : Char) (hc : c ∈ (escapeChar a).data) :
    c.toNat ≠ 60 ∧ c.toNat ≠ 62 := by
  unfold escapeChar at hc
  by_cases h38 : a.toNat = 38
  · rw [if_pos h38] at hc
    rw [show ("&amp;").data = ['&', 'a', 'm', 'p', ';'] from rfl] at hc
    fin_cases hc <;> decide
  · rw [if_neg h38] at hc
    by_cases h60 : a.toNat = 60
    · rw [if_pos h60] at hc
      rw [show ("&lt;").data = ['&', 'l', 't', ';'] from rfl] at hc
      fin_cases hc <;> decide
    · rw [if_neg h60] at hc
      by_cases h62 : a.toNat = 62
      · rw [if_pos h62] at hc
        rw [show ("&gt;").data = ['&', 'g', 't', ';'] from rfl] at hc
        fin_cases hc <;> decide
      · rw [if_neg h62] at hc
        by_cases h34 : a.toNat = 34
        · rw [if_pos h34] at hc
          rw [show ("&quot;").data = ['&', 'q', 'u', 'o', 't', ';'] from rfl] at hc
          fin_cases hc <;> decide
        · rw [if_neg h34] at hc
          by_cases h39 : a.toNat = 39
          · rw [if_pos h39] at hc
            rw [show ("&#x27;").data = ['&', '#', 'x', '2', '7', ';'] from rfl] at hc
            fin_cases hc <;> decide
          · rw [if_neg h39] at hc
            rw [show (String.singleton a).data = [a] from rfl] at hc
            simp only [List.mem_singleton] at hc
            subst hc
            exact ⟨h60, h62⟩

theorem escapeList_safe (l : List Char) :
    ∀ c ∈ (escapeList l).data, c.toNat ≠ 60 ∧ c.toNat ≠ 62 := by
  induction l with
  | nil => intro c hc; cases hc
  | cons a as ih =>
    intro c hc
    rw [escapeList, String.data_append] at hc
    rcases List.mem_append.mp hc with h | h
    · exact escapeChar_safe a c h
    · exact ih c h

theorem transformMessage_body (isoZ : String → Option String) (fs : FileSys)
    (convPath : String) (umap : String → Option String) (inl : Bool) (i : Nat)
    (m : RawMessage) (pr : Payload × List ManifestRow)
    (hatt : m.attachments = [])
    (hok : transformMessage isoZ fs convPath umap inl i m = Except.ok pr) :
    pr.1.bodyContent
      = (if pyStrip (pyOr m.text "") = "" then "<div></div>"
         else "<div>" ++ escapeHtml (pyStrip (pyOr m.text "")) ++ "</div>") := by
  simp only [transformMessage, hatt, List.foldl_nil] at hok
  rcases hscrut : (if createdOf m = "" then some (none : Option String)
      else (isoZ (createdOf m)).map some) with _ | cdt
  · rw [hscrut] at hok
    cases hok
  · rw [hscrut] at hok
    simp only [Except.ok.injEq] at hok
    subst hok
    rfl

def c7msg : SSMessage :=
  { createTime := none, createdTime := none, text := some "<b>", creatorEmail := none }

/-- Counterexample to C7 as stated: in `single_script.build_teams_payloads`
(one of the two transforms the claim ranges over) the body is
`f"<div>{text}</div>"` with NO escaping: a message whose text is `"<b>"`
yields the body `"<div><b></div>"`, in which the `<` and `>` from the text
survive as markup — it differs from the escaped wrap
`"<div>&lt;b&gt;</div>"`. -/
theorem C7_counterexample :
    (build_teams_payload (fun _ => "") c7msg).bodyContent = "<div><b></div>"
    ∧ "<div>" ++ escapeHtml "<b>" ++ "</div>" = "<div>&lt;b&gt;</div>"
    ∧ ("<div><b></div>" : String) ≠ "<div>&lt;b&gt;</div>" := by
  refine ⟨rfl, rfl, by decide⟩

/-- Claim C7, corrected: the Takeout transform
(`gchat_takeout_to_teams.transform_conversation`) HTML-escapes the trimmed
plain-text body and wraps it in a minimal `<div>` container — the escaped
text can contain no raw `<` or `>` — but the single-script variant
(`single_script.build_teams_payloads`) only wraps the raw text in a
`<div>` without escaping it. -/
theorem C7_escaping (s : String) :
    (∀ isoZ fs convPath umap inl i m pr,
        m.attachments = ([] : List RawAttachment) →
        transformMessage isoZ fs convPath umap inl i m = Except.ok pr →
        pr.1.bodyContent
          = (if pyStrip (pyOr m.text "") = "" then "<div></div>"
             else "<div>" ++ escapeHtml (pyStrip (pyOr m.text "")) ++ "</div>"))
    ∧ (∀ c ∈ (escapeHtml s).data, c.toNat ≠ 60 ∧ c.toNat ≠ 62)
    ∧ (∀ um m, (build_teams_payload um m).bodyContent
          = "<div>" ++ pyOr m.text "" ++ "</div>") := by
  refine ⟨?_, escapeList_safe s.data, fun um m => rfl⟩
  intro isoZ fs convPath umap inl i m pr hatt hok
  exact transformMessage_body isoZ fs convPath umap inl i m pr hatt hok

def c7raw : RawMessage :=
  { createTime := none, createdTime := none, created_at := none
  , text := some " a<b ", creator := none, sender := none, attachments := [] }

/-- Witness for C7 (corrected) on a concrete message with markup characters
in its text (`" a<b "`): the Takeout transform strips, escapes and wraps;
the single-script one wraps without escaping. -/
theorem C7_escaping_witness :
    (∃ pr, transformMessage iso4 fs4 "c" (fun _ => none) true 0 c7raw = Except.ok pr
      ∧ pr.1.bodyContent
          = (if pyStrip (pyOr c7raw.text "") = "" then "<div></div>"
             else "<div>" ++ escapeHtml (pyStrip (pyOr c7raw.text "")) ++ "</div>"))
    ∧ (build_teams_payload (fun _ => "") c7msg).bodyContent
        = "<div>" ++ pyOr c7msg.text "" ++ "</div>" := by
  constructor
  · exact ⟨_, rfl, (C7_escaping "").1 iso4 fs4 "c" (fun _ => none) true 0 c7raw _ rfl rfl⟩
  · exact (C7_escaping "").2.2 (fun _ => "") c7msg

/-! ## Claim C9 — purity of the transform -/

theorem transformMessage_fs_irrelevant (isoZ : String → Option String)
    (convPath : String) (umap : String → Option String) (inl : Bool) (i : Nat)
    (m : RawMessage) (hatt : m.attachments = []) (fs1 fs2 : FileSys) :
    transformMessage isoZ fs1 convPath umap inl i m
      = transformMessage isoZ fs2 convPath umap inl i m := by
  simp only [transformMessage, hatt, List.foldl_nil]

theorem transformGo_fs_irrelevant (isoZ : String → Option String)
    (convPath : String) (umap : String → Option String) (inl : Bool) :
    ∀ (msgs : List RawMessage), (∀ m ∈ msgs, m.attachments = []) →
      ∀ (fs1 fs2 : FileSys) (i : Nat),
        transformGo isoZ fs1 convPath umap inl i msgs
          = transformGo isoZ fs2 convPath umap inl i msgs := by
  intro msgs
  induction msgs with
  | nil => intro _ fs1 fs2 i; rfl
  | cons m rest ih =>
    intro h fs1 fs2 i
    have hm : m.attachments = [] := h m (List.mem_cons_self _ _)
    have hrest : ∀ x ∈ rest, x.attachments = [] :=
      fun x hx => h x (List.mem_cons_of_mem _ hx)
    simp only [transformGo]
    rw [transformMessage_fs_irrelevant isoZ convPath umap inl i m hm fs1 fs2,
        ih hrest fs1 fs2 (i + 1)]

def c9msg : RawMessage :=
  { createTime := some "t", createdTime := none, created_at := none
  , text := some "x", creator := none, sender := none
  , attachments := [{ contentType := some "image/png", filePath := some "a.png"
                    , path := none, name := none }] }

def c9fsA : FileSys := ⟨fun _ => true, fun _ => 1, fun _ => [7]⟩

def c9fsB : FileSys := ⟨fun _ => false, fun _ => 0, fun _ => []⟩

/-- Counterexample to C9 as stated: two runs of `transform_conversation`
on the SAME raw message records and the SAME identity table (and the same
timestamp parser) produce different outputs when the staging filesystem
differs — with the attachment file present the image is inlined as a
hosted content, with it absent the attachment is silently dropped — so the
transform is not a pure function of `(rawMessage, identityTable)` alone. -/
theorem C9_counterexample :
    transform_conversation iso4 c9fsA "c" (fun _ => none) true [c9msg]
      ≠ transform_conversation iso4 c9fsB "c" (fun _ => none) true [c9msg] := by
  intro h
  have h2 := congrArg
    (fun r : Except String (List Payload × List ManifestRow) => match r with
      | Except.ok pr => (Prod.fst pr).map (fun p : Payload => p.hostedContents.length)
      | Except.error _ => ([] : List Nat)) h
  exact absurd h2 (by decide)

/-- Claim C9, corrected: the transform is a deterministic function of the
raw messages, the identity table, the timestamp parser and the staged
attachment files; the dependence beyond `(rawMessage, identityTable)` is
exactly through the attachments — for conversations whose messages carry
no attachments the output is independent of the filesystem. -/
theorem C9_purity (isoZ : String → Option String) (convPath : String)
    (umap : String → Option String) (inl : Bool) (msgs : List RawMessage)
    (h : ∀ m ∈ msgs, m.attachments = []) (fs1 fs2 : FileSys) :
    transform_conversation isoZ fs1 convPath umap inl msgs
      = transform_conversation isoZ fs2 convPath umap inl msgs :=
  transformGo_fs_irrelevant isoZ convPath umap inl msgs h fs1 fs2 0

/-- Witness for C9 (corrected): an attachment-free conversation transforms
identically under two completely different filesystems. -/
theorem C9_purity_witness :
    transform_conversation iso4 c9fsA "c" (fun _ => none) true [c4msg "t1"]
      = transform_conversation iso4 c9fsB "c" (fun _ => none) true [c4msg "t1"] :=
  C9_purity iso4 "c" (fun _ => none) true [c4msg "t1"]
    (by intro m hm; simp only [List.mem_singleton] at hm; subst hm; rfl) c9fsA c9fsB

end ChatMigrator
